import Mathlib

/-!
Shallow embedding of the answer-extraction core of the question-generator
repository (`answer_extractor.py`) and of the single input-validation rule of
the UI entry point (`app.py`).

Strings are modelled as Lean `String` / `List Char`; the ASCII fragment of
Python's semantics is used for `\w`, `\s`, `str.lower` and `str.strip`
(the spec and all claims live in ASCII).  `random.choice(["True", "False"])`
is modelled by an explicit oracle parameter `rand : Bool`.
-/

/-- Lowercase every character of a character list (model of `str.lower`,
ASCII fragment). -/
def lowerL (l : List Char) : List Char := l.map Char.toLower

/-- Model of the regex class `\w`: alphanumeric or underscore (ASCII
fragment of Python's Unicode word characters). -/
def isWordChar (c : Char) : Bool := c.isAlphanum || c == '_'

/-- Model of `str.startswith(p)` on character lists: `p` is an initial
segment of the second argument. -/
def leadsWith : List Char → List Char → Bool
  | [], _ => true
  | _ :: _, [] => false
  | p :: ps, c :: cs => (p == c) && leadsWith ps cs

/-- Model of Python's substring test `w in s`: `w` occurs contiguously in
`s`. -/
def hasSub (w : List Char) : List Char → Bool
  | [] => w.isEmpty
  | c :: rest => leadsWith w (c :: rest) || hasSub w rest

/-- Accumulator pass behind `findWords`: `cur` holds the (reversed) current
run of word characters.  Mirrors `re.findall(r'\b\w+\b', s)`, which returns
the maximal runs of word characters in order. -/
def findWordsAux (cur : List Char) : List Char → List (List Char)
  | [] => if cur.isEmpty then [] else [cur.reverse]
  | c :: rest =>
      if isWordChar c then findWordsAux (c :: cur) rest
      else if cur.isEmpty then findWordsAux [] rest
      else cur.reverse :: findWordsAux [] rest

/-- Model of `re.findall(r'\b\w+\b', s)`: the maximal runs of word
characters of `s`, in order. -/
def findWords (s : List Char) : List (List Char) := findWordsAux [] s

/-- The fixed stop-word set of `simple_answer_extraction`
(`answer_extractor.py` lines 28-32), as character lists. -/
def stopWords : List (List Char) :=
  ["a".data, "an".data, "the".data, "and".data, "or".data, "but".data,
   "is".data, "are".data, "was".data, "were".data,
   "what".data, "where".data, "when".data, "why".data, "how".data,
   "who".data, "which".data, "in".data, "on".data,
   "at".data, "to".data, "for".data, "with".data, "by".data, "about".data,
   "this".data, "that".data, "these".data,
   "those".data, "from".data, "as".data, "of".data, "does".data, "do".data,
   "did".data, "can".data, "could".data,
   "will".data, "would".data, "should".data, "shall".data, "may".data,
   "might".data, "must".data]

/-- Model of `question_words = set(re.findall(r'\b\w+\b', question.lower()))`:
the distinct words of the lowercased question.  `List.dedup` keeps one copy
of each word; only set membership and cardinality of filters are ever used,
so the retained order is irrelevant. -/
def questionWords (question : String) : List (List Char) :=
  (findWords (lowerL question.data)).dedup

/-- Model of `content_words = question_words - stop_words`. -/
def contentWords (question : String) : List (List Char) :=
  (questionWords question).filter (fun w => !(stopWords.contains w))

/-- Sentence-terminating punctuation of the splitting regex
`(?<=[.!?])\s+`. -/
def isSentEnd (c : Char) : Bool := c == '.' || c == '!' || c == '?'

/-- State machine behind `sentencesOf`, mirroring
`re.split(r'(?<=[.!?])\s+', context)`.  `gap` is true while consuming a
maximal whitespace run that was preceded by `[.!?]` (the separator match);
`acc` is the reversed current piece and `done` the reversed finished pieces.
A split happens exactly when a whitespace character is read and the
previously read character (head of `acc`) is `.`, `!` or `?`, matching the
lookbehind; the greedy `\s+` is the `gap` state.  Like `re.split`, the
result always has at least one piece (for the empty string it is `[[]]`). -/
def splitSentencesAux : Bool → List Char → List (List Char) → List Char → List (List Char)
  | _, acc, done, [] => done.reverse ++ [acc.reverse]
  | true, acc, done, c :: rest =>
      if c.isWhitespace then splitSentencesAux true acc done rest
      else splitSentencesAux false [c] done rest
  | false, acc, done, c :: rest =>
      if c.isWhitespace && (match acc with | p :: _ => isSentEnd p | [] => false) then
        splitSentencesAux true [] (acc.reverse :: done) rest
      else splitSentencesAux false (c :: acc) done rest

/-- Model of `sentences = re.split(r'(?<=[.!?])\s+', context)`. -/
def sentencesOf (context : String) : List (List Char) :=
  splitSentencesAux false [] [] context.data

/-- Score of one sentence (`answer_extractor.py` lines 44-49): the number of
distinct content words occurring as substrings of the lowercased sentence,
plus 1 when the sentence index is 0 or 1. -/
def scoreOf (cw : List (List Char)) (i : Nat) (s : List Char) : Nat :=
  (cw.filter (fun w => hasSub w (lowerL s))).length + (if i < 2 then 1 else 0)

/-- Score of the `i`-th sentence of `context` against `question`, as computed
by `simple_answer_extraction` (out-of-range indices score against the empty
sentence). -/
def scoreAt (question context : String) (i : Nat) : Nat :=
  scoreOf (contentWords question) i ((sentencesOf context).getD i [])

/-- Overlap count of the `i`-th sentence: its score without the
first-two-sentences bonus. -/
def overlapAt (question context : String) (i : Nat) : Nat :=
  ((contentWords question).filter
    (fun w => hasSub w (lowerL ((sentencesOf context).getD i [])))).length

/-- A scored sentence, as in `sentence_scores.append((score, i, sentence))`. -/
abbrev Triple := Nat × Nat × List Char

/-- Strict comparison used by `sentence_scores.sort(reverse=True)`:
`better a b` holds when the tuple `b` is strictly greater than `a` in
Python's lexicographic tuple order.  The third (sentence) component is never
reached because the index components of the scored triples are pairwise
distinct. -/
def better (a b : Triple) : Bool :=
  decide (a.1 < b.1) || (decide (a.1 = b.1) && decide (a.2.1 < b.2.1))

/-- First element of the reverse-sorted score list: `sort(reverse=True)`
followed by `[0]` selects the greatest triple in lexicographic tuple order,
which this fold computes directly. -/
def pickBest : Triple → List Triple → Triple
  | best, [] => best
  | best, x :: rest => pickBest (if better best x then x else best) rest

/-- The list `sentence_scores` built by
`for i, sentence in enumerate(sentences)`, starting at index `base`. -/
def scoreTriples (cw : List (List Char)) (base : Nat) : List (List Char) → List Triple
  | [] => []
  | s :: rest => (scoreOf cw base s, base, s) :: scoreTriples cw (base + 1) rest

/-- Fallback answer literal (`answer_extractor.py` lines 40 and 61). -/
def fallbackAnswer : String :=
  "Based on the passage, this information is not explicitly stated."

/-- Indeterminate answer literal for fill-in-the-blank questions
(`answer_extractor.py` line 17). -/
def blankAnswer : String := "Cannot determine from the context."

/-- The fill-in-the-blank marker `"________"` (eight underscores). -/
def blankMarker : List Char := "________".data

/-- Model of
`question.lower().startswith(("true or false", "is the following", "indicate whether"))`. -/
def isTrueFalseQuestion (question : String) : Bool :=
  leadsWith "true or false".data (lowerL question.data) ||
  leadsWith "is the following".data (lowerL question.data) ||
  leadsWith "indicate whether".data (lowerL question.data)

/-- Model of `simple_answer_extraction(context, question)`
(`answer_extractor.py` lines 4-61).  `rand` is the oracle for
`random.choice(["True", "False"])`. -/
def simple_answer_extraction (rand : Bool) (context question : String) : String :=
  if hasSub blankMarker question.data then blankAnswer
  else if isTrueFalseQuestion question then (if rand then "True" else "False")
  else
    let cw := contentWords question
    let sentences := sentencesOf context
    if sentences = [] then fallbackAnswer
    else
      match scoreTriples cw 0 sentences with
      | [] => fallbackAnswer
      | t :: ts =>
          if 0 < (pickBest t ts).1 then String.mk (pickBest t ts).2.2
          else fallbackAnswer

/-- A question entry: the `question` and optional `answer` keys, plus any
further type-specific keys the generator attached (`extra`). -/
structure Question where
  question : String
  answer : Option String
  extra : List (String × String)
deriving DecidableEq

/-- Default question entry used with `List.getD`. -/
def defaultQuestion : Question := { question := "", answer := none, extra := [] }

/-- First argument of `extract_answers`: either a processed-text mapping
(`{"text": str}`) or a raw string. -/
inductive ExContext where
  | dictCtx (text : String)
  | strCtx (text : String)

/-- Model of the `isinstance(context, dict)` dispatch at
`answer_extractor.py` lines 75-78. -/
def ExContext.getText : ExContext → String
  | .dictCtx t => t
  | .strCtx t => t

/-- Per-question body of the loop of `extract_answers`
(`answer_extractor.py` lines 86-106). -/
def refineQuestion (rand : Bool) (text : String) (qType : String) (q : Question) : Question :=
  if qType = "fill-in-the-blank" ∨ qType = "true-false" then q
  else
    match q.answer with
    | some a =>
        if 5 < a.length then q
        else { question := q.question,
               answer := some (simple_answer_extraction rand text q.question),
               extra := [] }
    | none => { question := q.question,
                answer := some (simple_answer_extraction rand text q.question),
                extra := [] }

/-- Model of `extract_answers(context, questions_by_type)`
(`answer_extractor.py` lines 63-108).  The Python dict of question types is
modelled as an association list (Python dict keys are unique and iterate in
insertion order). -/
def extract_answers (rand : Bool) (context : ExContext)
    (questions_by_type : List (String × List Question)) :
    List (String × List Question) :=
  questions_by_type.map (fun tq =>
    (tq.1, tq.2.map (refineQuestion rand context.getText tq.1)))

/-- Concrete question set used to exercise `extract_answers` on concrete
inputs: a true/false entry, a short-answer entry with a long pre-existing
answer, and a long-answer entry with a short pre-existing answer. -/
def eaQbt : List (String × List Question) :=
  [("true-false",
    [{ question := "Q1", answer := some "True", extra := [("k", "v")] }]),
   ("short-answer",
    [{ question := "Q2", answer := some "abcdefg", extra := [("k", "v")] }]),
   ("long-answer",
    [{ question := "What is the capital of France?", answer := some "abc",
       extra := [("hint", "h")] }])]

/-- Model of Python `str.strip()` (ASCII whitespace fragment). -/
def pyStrip (s : String) : String :=
  String.mk (((s.data.dropWhile Char.isWhitespace).reverse.dropWhile
    Char.isWhitespace).reverse)

/-- Outcome of clicking the Generate Questions button: either the
user-facing rejection message, or the pipeline stages run (the stages
themselves live in modules outside this repository snapshot and are
abstracted to a single constructor). -/
inductive GenerateOutcome where
  | rejected (message : String)
  | pipelineRun
deriving DecidableEq

/-- The user-facing validation message of `app.py` line 62. -/
def rejectMessage : String :=
  "Please enter a substantial text passage (at least 50 characters) to generate meaningful questions."

/-- Model of the Generate Questions button handler's validation
(`app.py` lines 60-62): `if not text_input or len(text_input.strip()) < 50`. -/
def generateQuestionsClick (text_input : String) : GenerateOutcome :=
  if text_input = "" ∨ (pyStrip text_input).length < 50 then
    .rejected rejectMessage
  else .pipelineRun

/-! ### Helper lemmas about the selection of the best-scored sentence -/

/-- Unfolding of `better a b = false` into arithmetic on the score and index
components: `b` fails to beat `a` exactly when `(b.1, b.2.1)` is at most
`(a.1, a.2.1)` lexicographically. -/
lemma better_false_iff (a b : Triple) :
    better a b = false ↔ (b.1 < a.1 ∨ (b.1 = a.1 ∧ b.2.1 ≤ a.2.1)) := by
  simp only [better, Bool.or_eq_false_iff, Bool.and_eq_false_iff,
    decide_eq_false_iff_not]
  omega

/-- Unfolding of `better a b = true` into arithmetic. -/
lemma better_true_iff (a b : Triple) :
    better a b = true ↔ (a.1 < b.1 ∨ (a.1 = b.1 ∧ a.2.1 < b.2.1)) := by
  simp only [better, Bool.or_eq_true, Bool.and_eq_true, decide_eq_true_eq]

/-- The fold `pickBest` returns a member of the candidate list. -/
lemma pickBest_mem : ∀ (l : List Triple) (b : Triple), pickBest b l ∈ b :: l := by
  intro l
  induction l with
  | nil => intro b; simp [pickBest]
  | cons x rest ih =>
      intro b
      have h1 := ih (if better b x then x else b)
      simp only [pickBest]
      by_cases hbx : better b x = true
      · rw [if_pos hbx] at h1 ⊢
        simp only [List.mem_cons] at h1 ⊢
        tauto
      · rw [if_neg hbx] at h1 ⊢
        simp only [List.mem_cons] at h1 ⊢
        tauto

/-- The fold `pickBest` returns an element no candidate beats: it is the
lexicographic maximum of the `(score, index)` keys, as produced by
`sort(reverse=True)` followed by indexing `[0]`. -/
lemma pickBest_best : ∀ (l : List Triple) (b y : Triple),
    y ∈ b :: l → better (pickBest b l) y = false := by
  intro l
  induction l with
  | nil =>
      intro b y hy
      simp only [List.mem_cons, List.not_mem_nil, or_false] at hy
      subst hy
      simp only [pickBest]
      rw [better_false_iff]
      omega
  | cons x rest ih =>
      intro b y hy
      simp only [pickBest]
      by_cases hbx : better b x = true
      · rw [if_pos hbx]
        rcases List.mem_cons.mp hy with h | h
        · subst h
          have h2 := ih x x (by simp)
          rw [better_false_iff] at h2 ⊢
          rw [better_true_iff] at hbx
          omega
        · exact ih x y h
      · rw [if_neg hbx]
        have hbx' : better b x = false := by
          revert hbx; cases better b x <;> simp
        rcases List.mem_cons.mp hy with h | h
        · rw [h]; exact ih b b (by simp)
        · rcases List.mem_cons.mp h with h2 | h2
          · rw [h2]
            have h3 := ih b b (by simp)
            rw [better_false_iff] at h3 hbx' ⊢
            omega
          · exact ih b y (by simp [h2])

/-- Membership characterisation of the scored-sentence list built by the
`enumerate` loop: its elements are exactly the triples
`(score, base + j, j-th sentence)`. -/
lemma scoreTriples_mem (cw : List (List Char)) :
    ∀ (l : List (List Char)) (base : Nat) (t : Triple),
      t ∈ scoreTriples cw base l ↔
        ∃ j, j < l.length ∧
          t = (scoreOf cw (base + j) (l.getD j []), base + j, l.getD j []) := by
  intro l
  induction l with
  | nil => intro base t; simp [scoreTriples]
  | cons s rest ih =>
      intro base t
      simp only [scoreTriples, List.mem_cons]
      constructor
      · rintro (h | h)
        · exact ⟨0, by simp, by simpa using h⟩
        · obtain ⟨j, hj, htj⟩ := (ih (base + 1) t).mp h
          refine ⟨j + 1, by simpa using hj, ?_⟩
          have harith : base + 1 + j = base + (j + 1) := by omega
          rw [htj, harith]
          simp [List.getD_cons_succ]
      · rintro ⟨j, hj, htj⟩
        cases j with
        | zero => left; simpa using htj
        | succ j =>
            right
            refine (ih (base + 1) t).mpr ⟨j, by simpa using hj, ?_⟩
            have harith : base + (j + 1) = base + 1 + j := by omega
            rw [htj, harith]
            simp [List.getD_cons_succ]

/-- Characterisation of the selected triple on a nonempty sentence list:
there is an index `jb` such that the selected triple is the scored triple of
sentence `jb`, every sentence's score is at most that of sentence `jb`, and
every sentence tying that score has index at most `jb`. -/
lemma pickBest_characterisation (cw : List (List Char)) (s : List Char)
    (ss : List (List Char)) :
    ∃ jb, jb < (s :: ss).length ∧
      pickBest (scoreOf cw 0 s, 0, s) (scoreTriples cw 1 ss)
        = (scoreOf cw jb ((s :: ss).getD jb []), jb, (s :: ss).getD jb []) ∧
      ∀ j, j < (s :: ss).length →
        scoreOf cw j ((s :: ss).getD j []) ≤ scoreOf cw jb ((s :: ss).getD jb []) ∧
        (scoreOf cw j ((s :: ss).getD j []) = scoreOf cw jb ((s :: ss).getD jb [])
          → j ≤ jb) := by
  have hlist : scoreTriples cw 0 (s :: ss)
      = (scoreOf cw 0 s, 0, s) :: scoreTriples cw 1 ss := by
    simp [scoreTriples]
  have hmem := pickBest_mem (scoreTriples cw 1 ss) (scoreOf cw 0 s, 0, s)
  rw [← hlist] at hmem
  obtain ⟨jb, hjb, hbt⟩ := (scoreTriples_mem cw (s :: ss) 0 _).mp hmem
  simp only [Nat.zero_add] at hbt
  refine ⟨jb, hjb, hbt, ?_⟩
  intro j hj
  have hyj : (scoreOf cw j ((s :: ss).getD j []), j, (s :: ss).getD j [])
      ∈ scoreTriples cw 0 (s :: ss) :=
    (scoreTriples_mem cw (s :: ss) 0 _).mpr ⟨j, hj, by simp⟩
  rw [hlist, List.mem_cons] at hyj
  have hbeat := pickBest_best (scoreTriples cw 1 ss) (scoreOf cw 0 s, 0, s)
    _ (List.mem_cons.mpr hyj)
  rw [hbt, better_false_iff] at hbeat
  simp only at hbeat
  constructor
  · omega
  · intro heq; omega

/-- Reduction of `simple_answer_extraction` to the selected triple, in the
general-question branch with a nonempty sentence list. -/
lemma sae_eq_pick (r : Bool) (c q : String)
    (hb : hasSub blankMarker q.data = false)
    (ht : isTrueFalseQuestion q = false)
    (s : List Char) (ss : List (List Char)) (hs : sentencesOf c = s :: ss) :
    simple_answer_extraction r c q =
      (if 0 < (pickBest (scoreOf (contentWords q) 0 s, 0, s)
               (scoreTriples (contentWords q) 1 ss)).1
       then String.mk (pickBest (scoreOf (contentWords q) 0 s, 0, s)
               (scoreTriples (contentWords q) 1 ss)).2.2
       else fallbackAnswer) := by
  unfold simple_answer_extraction
  rw [hb, ht]
  simp [hs, scoreTriples]

/-- Helper lemma: `getD` through `map`, at an in-range index. -/
lemma getD_map_of_lt {α β : Type} (f : α → β) :
    ∀ (l : List α) (k : Nat), k < l.length →
      ∀ (da : α) (db : β), (l.map f).getD k db = f (l.getD k da) := by
  intro l
  induction l with
  | nil => intro k hk; simp at hk
  | cons a as ih =>
      intro k hk da db
      cases k with
      | zero => simp
      | succ k =>
          simp only [List.map_cons, List.getD_cons_succ]
          exact ih k (by simpa using hk) da db

/-- Helper lemma: `getD` through `map`, at any index, when the map function
fixes the default. -/
lemma getD_map_fix {α β : Type} (f : α → β) (da : α) (db : β)
    (hfix : f da = db) :
    ∀ (l : List α) (k : Nat), (l.map f).getD k db = f (l.getD k da) := by
  intro l
  induction l with
  | nil => intro k; simpa using hfix.symm
  | cons a as ih =>
      intro k
      cases k with
      | zero => simp
      | succ k =>
          simp only [List.map_cons, List.getD_cons_succ]
          exact ih k

/-- Helper lemma: a map whose function fixes every element of the list is
the identity on that list. -/
lemma map_eq_self {α : Type} (f : α → α) :
    ∀ (l : List α), (∀ a ∈ l, f a = a) → l.map f = l := by
  intro l
  induction l with
  | nil => intro _; simp
  | cons a as ih =>
      intro h
      simp only [List.map_cons]
      rw [h a (by simp), ih (fun x hx => h x (by simp [hx]))]

/-! ### Claim theorems -/

/-- C8: for every context string and every question containing the substring
`"________"`, `simple_answer_extraction` returns the fixed
indeterminate-answer string `"Cannot determine from the context."`,
regardless of any other property of the question or context. -/
theorem sae_blank_question (r : Bool) (c q : String)
    (h : hasSub blankMarker q.data = true) :
    simple_answer_extraction r c q = "Cannot determine from the context." := by
  simp only [simple_answer_extraction, h]
  rfl

/-- Witness for C8 at a concrete blank question. -/
theorem sae_blank_question_witness :
    hasSub blankMarker "The answer is ________.".data = true ∧
    simple_answer_extraction true "some context" "The answer is ________."
      = "Cannot determine from the context." :=
  ⟨by decide,
   sae_blank_question true "some context" "The answer is ________." (by decide)⟩

/-- C2 (code behaviour at the claimed input): for the empty-string context,
`re.split` yields the single empty sentence `['']`, so the dead
`if not sentences` guard does not fire; the empty sentence receives the
first-sentence bonus, scores 1, and is returned.  The extractor therefore
returns the empty string, not the "not explicitly stated" fallback the
claim (and the guard's own intent) state. -/
theorem sae_empty_context_eval :
    sentencesOf "" = [[]] ∧
    scoreAt "What is the capital of France?" "" 0 = 1 ∧
    simple_answer_extraction true "" "What is the capital of France?" = "" ∧
    "" ≠ fallbackAnswer := by
  refine ⟨by decide, by decide, by decide, by decide⟩

/-- C7: on the Paris example, the first sentence shares "capital" and
"france" with the question and also gets the first-sentence bonus, so it is
returned. -/
theorem sae_paris_example (r : Bool) :
    simple_answer_extraction r
      "Paris is the capital of France. It has a population of over two million."
      "What is the capital of France?" = "Paris is the capital of France." := by
  cases r <;> decide

/-- C3 (amended): for every context and every question whose lowercased text
starts with a true/false prefix and which does not contain the substring
`"________"`, the result is exactly `"True"` or exactly `"False"`. -/
theorem sae_truefalse_literal (r : Bool) (c q : String)
    (hb : hasSub blankMarker q.data = false)
    (ht : isTrueFalseQuestion q = true) :
    simple_answer_extraction r c q = "True" ∨
    simple_answer_extraction r c q = "False" := by
  simp only [simple_answer_extraction, hb, ht]
  cases r
  · exact Or.inr rfl
  · exact Or.inl rfl

/-- Counterexample to C3 as stated: a true/false-prefixed question that
contains `"________"` is caught by the fill-in-the-blank check first and
yields the indeterminate string, not `"True"`/`"False"`. -/
theorem sae_truefalse_blank_cex :
    isTrueFalseQuestion "True or false: ________ is the capital." = true ∧
    simple_answer_extraction true "Paris is nice."
      "True or false: ________ is the capital."
      = "Cannot determine from the context." ∧
    simple_answer_extraction true "Paris is nice."
      "True or false: ________ is the capital." ≠ "True" ∧
    simple_answer_extraction true "Paris is nice."
      "True or false: ________ is the capital." ≠ "False" := by
  refine ⟨by decide, by decide, by decide, by decide⟩

/-- Witness for the amended C3 at a concrete true/false question. -/
theorem sae_truefalse_literal_witness :
    hasSub blankMarker "True or false: Paris is in France.".data = false ∧
    isTrueFalseQuestion "True or false: Paris is in France." = true ∧
    (simple_answer_extraction true "" "True or false: Paris is in France." = "True" ∨
     simple_answer_extraction true "" "True or false: Paris is in France." = "False") :=
  ⟨by decide, by decide,
   sae_truefalse_literal true "" "True or false: Paris is in France."
     (by decide) (by decide)⟩

/-- C1 (amended): in the general-question branch, the returned sentence is
the one at the GREATEST index attaining the maximal score — reverse-sorting
the `(score, index, sentence)` triples places the largest index first among
equal scores, so ties are broken by the latest index, not the earliest. -/
theorem sae_tie_latest_index (r : Bool) (c q : String)
    (hb : hasSub blankMarker q.data = false)
    (ht : isTrueFalseQuestion q = false)
    (i : Nat) (hi : i < (sentencesOf c).length)
    (hmax : ∀ j, j < (sentencesOf c).length → scoreAt q c j ≤ scoreAt q c i)
    (hlate : ∀ j, j < (sentencesOf c).length → scoreAt q c j = scoreAt q c i → j ≤ i)
    (hpos : 0 < scoreAt q c i) :
    simple_answer_extraction r c q = String.mk ((sentencesOf c).getD i []) := by
  obtain ⟨s, ss, hs⟩ : ∃ s ss, sentencesOf c = s :: ss := by
    cases hsen : sentencesOf c with
    | nil => rw [hsen] at hi; simp at hi
    | cons s ss => exact ⟨s, ss, rfl⟩
  have hscore : ∀ j, scoreAt q c j
      = scoreOf (contentWords q) j ((s :: ss).getD j []) := by
    intro j
    unfold scoreAt
    rw [hs]
  have hlen : (sentencesOf c).length = (s :: ss).length := by rw [hs]
  have hi' : i < (s :: ss).length := by rw [← hlen]; exact hi
  obtain ⟨jb, hjb, hbt, hprop⟩ := pickBest_characterisation (contentWords q) s ss
  have h1 := (hprop i hi').1
  have h2 : scoreOf (contentWords q) jb ((s :: ss).getD jb [])
      ≤ scoreOf (contentWords q) i ((s :: ss).getD i []) := by
    have hj := hmax jb (by rw [hlen]; exact hjb)
    rw [hscore jb, hscore i] at hj
    exact hj
  have h3 : jb ≤ i := by
    apply hlate jb (by rw [hlen]; exact hjb)
    rw [hscore jb, hscore i]
    omega
  have h4 : i ≤ jb := (hprop i hi').2 (by omega)
  have hji : jb = i := by omega
  rw [hji] at hbt
  have hp : 0 < scoreOf (contentWords q) i ((s :: ss).getD i []) := by
    rw [← hscore i]
    exact hpos
  rw [sae_eq_pick r c q hb ht s ss hs, hbt]
  simp only
  rw [if_pos hp, hs]

/-- Counterexample to C1 as stated: both sentences of
`"cat one. cat two."` tie at the maximal score 2 against `"name a cat"`,
and the extractor returns the second (latest) sentence, not the earliest. -/
theorem sae_tie_earliest_cex :
    scoreAt "name a cat" "cat one. cat two." 0
      = scoreAt "name a cat" "cat one. cat two." 1 ∧
    (sentencesOf "cat one. cat two.").length = 2 ∧
    simple_answer_extraction true "cat one. cat two." "name a cat" = "cat two." ∧
    simple_answer_extraction true "cat one. cat two." "name a cat" ≠ "cat one." := by
  refine ⟨by decide, by decide, by decide, by decide⟩

/-- Witness for the amended C1 at the concrete tied input. -/
theorem sae_tie_latest_index_witness :
    hasSub blankMarker "name a cat".data = false ∧
    isTrueFalseQuestion "name a cat" = false ∧
    1 < (sentencesOf "cat one. cat two.").length ∧
    simple_answer_extraction true "cat one. cat two." "name a cat"
      = String.mk ((sentencesOf "cat one. cat two.").getD 1 []) :=
  ⟨by decide, by decide, by decide,
   sae_tie_latest_index true "cat one. cat two." "name a cat" (by decide) (by decide)
     1 (by decide) (by decide) (by decide) (by decide)⟩

/-- C6: for a context whose sentence list is a single sentence sharing no
content word with the question, the sentence is at index 0, receives the
first-two-sentences bonus, scores 1 > 0, and is itself returned. -/
theorem sae_single_sentence (r : Bool) (c q : String)
    (hb : hasSub blankMarker q.data = false)
    (ht : isTrueFalseQuestion q = false)
    (s : List Char) (hs : sentencesOf c = [s])
    (hnov : ∀ w ∈ contentWords q, hasSub w (lowerL s) = false) :
    simple_answer_extraction r c q = String.mk s := by
  rw [sae_eq_pick r c q hb ht s [] hs]
  have hfil : (contentWords q).filter (fun w => hasSub w (lowerL s)) = [] := by
    rw [List.filter_eq_nil_iff]
    intro w hw
    simp [hnov w hw]
  simp [pickBest, scoreTriples, scoreOf, hfil]

/-- Witness for C6 at a concrete single-sentence context with no overlap. -/
theorem sae_single_sentence_witness :
    hasSub blankMarker "money stuff".data = false ∧
    isTrueFalseQuestion "money stuff" = false ∧
    sentencesOf "zebra" = ["zebra".data] ∧
    (∀ w ∈ contentWords "money stuff", hasSub w (lowerL "zebra".data) = false) ∧
    simple_answer_extraction true "zebra" "money stuff" = String.mk "zebra".data :=
  ⟨by decide, by decide, by decide, by decide,
   sae_single_sentence true "zebra" "money stuff" (by decide) (by decide)
     "zebra".data (by decide) (by decide)⟩

/-- Helper lemma: the `k`-th pair of the output of `extract_answers` keeps
the type label of the `k`-th input pair and maps `refineQuestion` over its
question list (also at out-of-range `k`, where both sides are the default
pair). -/
lemma extract_answers_getD (r : Bool) (ctx : ExContext)
    (qbt : List (String × List Question)) (k : Nat) :
    (extract_answers r ctx qbt).getD k ("", [])
      = ((qbt.getD k ("", [])).1,
         (qbt.getD k ("", [])).2.map
           (refineQuestion r ctx.getText (qbt.getD k ("", [])).1)) := by
  unfold extract_answers
  rw [getD_map_fix _ ("", ([] : List Question)) ("", ([] : List Question))
    rfl qbt k]

/-- C4: in the general-question branch, each sentence's score is its
content-word overlap count plus 1 at indices 0 and 1; when some sentence
scores above zero a highest-scoring sentence is returned, and when every
sentence scores zero the fixed fallback string is returned. -/
theorem sae_score_selection (r : Bool) (c q : String)
    (hb : hasSub blankMarker q.data = false)
    (ht : isTrueFalseQuestion q = false) :
    (∀ i, scoreAt q c i = overlapAt q c i + (if i < 2 then 1 else 0))
    ∧ ((∃ i, i < (sentencesOf c).length ∧ 0 < scoreAt q c i) →
        ∃ i, i < (sentencesOf c).length ∧
          simple_answer_extraction r c q = String.mk ((sentencesOf c).getD i []) ∧
          ∀ j, j < (sentencesOf c).length → scoreAt q c j ≤ scoreAt q c i)
    ∧ ((∀ i, i < (sentencesOf c).length → scoreAt q c i = 0) →
        simple_answer_extraction r c q = fallbackAnswer) := by
  refine ⟨fun i => rfl, ?_, ?_⟩
  · rintro ⟨i0, hi0, hpos0⟩
    obtain ⟨s, ss, hs⟩ : ∃ s ss, sentencesOf c = s :: ss := by
      cases hsen : sentencesOf c with
      | nil => rw [hsen] at hi0; simp at hi0
      | cons s ss => exact ⟨s, ss, rfl⟩
    have hscore : ∀ j, scoreAt q c j
        = scoreOf (contentWords q) j ((s :: ss).getD j []) := by
      intro j
      unfold scoreAt
      rw [hs]
    have hlen : (sentencesOf c).length = (s :: ss).length := by rw [hs]
    obtain ⟨jb, hjb, hbt, hprop⟩ := pickBest_characterisation (contentWords q) s ss
    refine ⟨jb, by rw [hlen]; exact hjb, ?_, ?_⟩
    · have hp : 0 < scoreOf (contentWords q) jb ((s :: ss).getD jb []) := by
        have h1 := (hprop i0 (by rw [← hlen]; exact hi0)).1
        have h2 : 0 < scoreOf (contentWords q) i0 ((s :: ss).getD i0 []) := by
          rw [← hscore i0]
          exact hpos0
        omega
      rw [sae_eq_pick r c q hb ht s ss hs, hbt]
      simp only
      rw [if_pos hp, hs]
    · intro j hj
      have hle := (hprop j (by rw [← hlen]; exact hj)).1
      rw [hscore j, hscore jb]
      exact hle
  · intro hzero
    cases hsen : sentencesOf c with
    | nil => simp [simple_answer_extraction, hb, ht, hsen]
    | cons s ss =>
        have hscore : ∀ j, scoreAt q c j
            = scoreOf (contentWords q) j ((s :: ss).getD j []) := by
          intro j
          unfold scoreAt
          rw [hsen]
        obtain ⟨jb, hjb, hbt, hprop⟩ :=
          pickBest_characterisation (contentWords q) s ss
        have hz : scoreOf (contentWords q) jb ((s :: ss).getD jb []) = 0 := by
          have hzz := hzero jb (by rw [hsen]; exact hjb)
          rw [hscore jb] at hzz
          exact hzz
        rw [sae_eq_pick r c q hb ht s ss hsen, hbt]
        simp only
        rw [if_neg (by omega)]

/-- Witness for C4 at the Paris example: sentence 0 scores maximally and is
returned. -/
theorem sae_score_selection_witness :
    hasSub blankMarker "What is the capital of France?".data = false ∧
    isTrueFalseQuestion "What is the capital of France?" = false ∧
    (∃ i, i < (sentencesOf "Paris is the capital of France. It has a population of over two million.").length ∧
      simple_answer_extraction true
        "Paris is the capital of France. It has a population of over two million."
        "What is the capital of France?"
        = String.mk ((sentencesOf "Paris is the capital of France. It has a population of over two million.").getD i []) ∧
      ∀ j, j < (sentencesOf "Paris is the capital of France. It has a population of over two million.").length →
        scoreAt "What is the capital of France?"
          "Paris is the capital of France. It has a population of over two million." j
        ≤ scoreAt "What is the capital of France?"
          "Paris is the capital of France. It has a population of over two million." i) :=
  ⟨by decide, by decide,
   (sae_score_selection true
      "Paris is the capital of France. It has a population of over two million."
      "What is the capital of France?" (by decide) (by decide)).2.1
     ⟨0, by decide, by decide⟩⟩

/-- C5: `extract_answers` leaves every entry of the fill-in-the-blank and
true-false types unchanged, and for every entry of any other type whose
existing answer is longer than 5 characters it keeps that entry unchanged
rather than re-deriving the answer. -/
theorem extract_answers_preserves (r : Bool) (ctx : ExContext)
    (qbt : List (String × List Question)) (k i : Nat) :
    (((qbt.getD k ("", [])).1 = "fill-in-the-blank" ∨
      (qbt.getD k ("", [])).1 = "true-false") →
        (extract_answers r ctx qbt).getD k ("", []) = qbt.getD k ("", []))
    ∧ (∀ a : String,
        ((qbt.getD k ("", [])).2.getD i defaultQuestion).answer = some a →
        5 < a.length →
        ((extract_answers r ctx qbt).getD k ("", [])).2.getD i defaultQuestion
          = (qbt.getD k ("", [])).2.getD i defaultQuestion) := by
  constructor
  · intro htype
    rw [extract_answers_getD]
    have hid : ∀ qq ∈ (qbt.getD k ("", [])).2,
        refineQuestion r ctx.getText (qbt.getD k ("", [])).1 qq = qq := by
      intro qq _
      unfold refineQuestion
      rw [if_pos htype]
    rw [map_eq_self _ _ hid]
  · intro a ha hlen5
    rw [extract_answers_getD]
    simp only
    by_cases hi : i < (qbt.getD k ("", [])).2.length
    · rw [getD_map_of_lt _ _ i hi defaultQuestion defaultQuestion]
      unfold refineQuestion
      by_cases htype : (qbt.getD k ("", [])).1 = "fill-in-the-blank" ∨
          (qbt.getD k ("", [])).1 = "true-false"
      · rw [if_pos htype]
      · rw [if_neg htype, ha]
        simp [hlen5]
    · exfalso
      rw [List.getD_eq_default _ _ (by omega)] at ha
      simp [defaultQuestion] at ha

/-- Witness for C5: the true-false entry of `eaQbt` is kept whole, and the
short-answer entry's 7-character answer is kept. -/
theorem extract_answers_preserves_witness :
    ((eaQbt.getD 0 ("", [])).1 = "true-false" ∧
      (extract_answers true (ExContext.strCtx "some context") eaQbt).getD 0 ("", [])
        = eaQbt.getD 0 ("", [])) ∧
    (((eaQbt.getD 1 ("", [])).2.getD 0 defaultQuestion).answer = some "abcdefg" ∧
      5 < ("abcdefg" : String).length ∧
      ((extract_answers true (ExContext.strCtx "some context") eaQbt).getD 1 ("", [])).2.getD 0 defaultQuestion
        = (eaQbt.getD 1 ("", [])).2.getD 0 defaultQuestion) :=
  ⟨⟨rfl,
    (extract_answers_preserves true (ExContext.strCtx "some context") eaQbt 0 0).1
      (Or.inr rfl)⟩,
   ⟨rfl, by decide,
    (extract_answers_preserves true (ExContext.strCtx "some context") eaQbt 1 0).2
      "abcdefg" rfl (by decide)⟩⟩

/-- C10: when `extract_answers` computes a new answer (type neither
fill-in-the-blank nor true-false, no existing answer longer than
5 characters), the output entry is the fresh two-field mapping
`{question, answer}`; every other field of the input entry is discarded
(`extra = []`). -/
theorem extract_answers_fresh_entry (r : Bool) (ctx : ExContext)
    (qbt : List (String × List Question)) (k i : Nat)
    (_hk : k < qbt.length)
    (hi : i < (qbt.getD k ("", [])).2.length)
    (htype : ¬((qbt.getD k ("", [])).1 = "fill-in-the-blank" ∨
               (qbt.getD k ("", [])).1 = "true-false"))
    (hans : ((((qbt.getD k ("", [])).2.getD i defaultQuestion).answer.getD "").length ≤ 5)) :
    ((extract_answers r ctx qbt).getD k ("", [])).2.getD i defaultQuestion
      = { question := ((qbt.getD k ("", [])).2.getD i defaultQuestion).question,
          answer := some (simple_answer_extraction r ctx.getText
            ((qbt.getD k ("", [])).2.getD i defaultQuestion).question),
          extra := [] } := by
  rw [extract_answers_getD]
  simp only
  rw [getD_map_of_lt _ _ i hi defaultQuestion defaultQuestion]
  unfold refineQuestion
  rw [if_neg htype]
  cases hq : ((qbt.getD k ("", [])).2.getD i defaultQuestion).answer with
  | none => rfl
  | some a =>
      simp only [hq, Option.getD_some] at hans
      simp [show ¬(5 < a.length) from by omega]

/-- Witness for C10: the long-answer entry of `eaQbt` (answer "abc", length
3) is replaced by the fresh two-field mapping. -/
theorem extract_answers_fresh_entry_witness :
    2 < eaQbt.length ∧
    0 < (eaQbt.getD 2 ("", [])).2.length ∧
    ¬((eaQbt.getD 2 ("", [])).1 = "fill-in-the-blank" ∨
      (eaQbt.getD 2 ("", [])).1 = "true-false") ∧
    ((((eaQbt.getD 2 ("", [])).2.getD 0 defaultQuestion).answer.getD "").length ≤ 5) ∧
    ((extract_answers true
        (ExContext.strCtx "Paris is the capital of France. It has a population of over two million.")
        eaQbt).getD 2 ("", [])).2.getD 0 defaultQuestion
      = { question := ((eaQbt.getD 2 ("", [])).2.getD 0 defaultQuestion).question,
          answer := some (simple_answer_extraction true
            "Paris is the capital of France. It has a population of over two million."
            ((eaQbt.getD 2 ("", [])).2.getD 0 defaultQuestion).question),
          extra := [] } :=
  ⟨by decide, by decide, by decide, by decide,
   extract_answers_fresh_entry true
     (ExContext.strCtx "Paris is the capital of France. It has a population of over two million.")
     eaQbt 2 0 (by decide) (by decide) (by decide) (by decide)⟩

/-- C9: the Generate Questions button handler rejects, with the fixed
user-facing message and without running any pipeline stage, exactly the
inputs whose whitespace-trimmed length is below 50 characters; every other
input runs the pipeline. -/
theorem generate_click_validation (t : String) :
    (generateQuestionsClick t = GenerateOutcome.rejected rejectMessage
        ↔ (pyStrip t).length < 50)
    ∧ (generateQuestionsClick t = GenerateOutcome.pipelineRun
        ↔ 50 ≤ (pyStrip t).length) := by
  unfold generateQuestionsClick
  by_cases h : t = "" ∨ (pyStrip t).length < 50
  · rw [if_pos h]
    have hlt : (pyStrip t).length < 50 := by
      rcases h with h | h
      · rw [h]
        decide
      · exact h
    refine ⟨⟨fun _ => hlt, fun _ => rfl⟩, ⟨fun hcon => by simp at hcon, fun hge => by omega⟩⟩
  · rw [if_neg h]
    push_neg at h
    refine ⟨⟨fun hcon => by simp at hcon, fun hlt => absurd hlt (by omega)⟩,
      ⟨fun _ => h.2, fun _ => rfl⟩⟩

/-- Witness for C9 at a concrete short input. -/
theorem generate_click_validation_witness :
    (pyStrip "too short").length < 50 ∧
    (generateQuestionsClick "too short" = GenerateOutcome.rejected rejectMessage
      ↔ (pyStrip "too short").length < 50) :=
  ⟨by decide, (generate_click_validation "too short").1⟩
